import Mathlib

/-!
# Verification of the rule-evaluation and backtest core

Shallow embedding of `src/core/backtester.py`, `src/core/strategy_spec.py`
and `src/core/validator.py`.

Modelling conventions:
* Numeric cell values are rationals (`ℚ`); a `none` cell models a
  missing/NaN value at a day (pandas `pd.isna`).
* Python `int` fields (`fast_ma`, `slow_ma`, `window`, `lookahead_days`,
  `duration_days`, dates as ordinals) are `Int`.
* `direction`, `relation` and `threshold` are `String`s, exactly as in the
  Python dataclasses, where no runtime validation restricts them and the
  evaluator branches on `== "above"` / `== "below"`.
* The feature table (`pd.DataFrame`) is modelled by its row count together
  with, for each window size, the presence and contents of the
  `ma_{w}`, `rv_{w}` and `rv_{w}_med_252` columns, plus the `close`,
  `return` and rendered date columns.
* Float formatting in reason strings (`%.2f`, `%.2%`) is abstracted by an
  exact rendering of the rational value; no claim inspects these strings.
-/

/-! ## Definitions: shallow embedding of the source -/

/-- Translation of `CrossoverRule` (strategy_spec.py). -/
structure CrossoverRule where
  fast_ma : Int
  slow_ma : Int
  direction : String
  lookahead_days : Option Int := none
  duration_days : Option Int := none
deriving DecidableEq

/-- Translation of `VolFilterRule` (strategy_spec.py). -/
structure VolFilterRule where
  window : Int
  threshold : String
  relation : String
  lookahead_days : Option Int := none
  duration_days : Option Int := none
deriving DecidableEq

/-- Translation of `Rule = Union[CrossoverRule, VolFilterRule]`. -/
inductive Rule where
  | crossover (r : CrossoverRule)
  | vol_filter (r : VolFilterRule)
deriving DecidableEq

/-- The `lookahead_days` field, shared by both rule variants. -/
def Rule.lookahead_days : Rule → Option Int
  | .crossover r => r.lookahead_days
  | .vol_filter r => r.lookahead_days

/-- The `duration_days` field, shared by both rule variants. -/
def Rule.duration_days : Rule → Option Int
  | .crossover r => r.duration_days
  | .vol_filter r => r.duration_days

/-- Translation of `StrategySpec` (strategy_spec.py).  Dates are modelled
as day ordinals (`Int`); only their relative order matters to the core. -/
structure StrategySpec where
  ticker : String
  start_date : Int
  end_date : Int
  entry_rules : List Rule
  exit_rules : List Rule
  metrics : List String
  entry_sequential : Bool := false
deriving DecidableEq

/-- The feature table (`pd.DataFrame` consumed by the backtester).
`ma w i` is the value of column `ma_{w}` at row `i` (`none` = NaN),
`hasMA w` is column presence; likewise `rv`/`rvMed` for `rv_{w}` and
`rv_{w}_med_252`.  `dateStr i` is the rendered date of row `i` (the
source renders `df["date"]` or falls back to `str(i)`). -/
structure Table where
  n : Nat
  hasMA : Int → Bool
  ma : Int → Nat → Option ℚ
  hasRV : Int → Bool
  rv : Int → Nat → Option ℚ
  hasRVMed : Int → Bool
  rvMed : Int → Nat → Option ℚ
  close : Nat → ℚ
  ret : Nat → ℚ
  dateStr : Nat → String

/-- `(fast > slow) if rule.direction == "above" else (fast < slow)`. -/
def crossCondMet (direction : String) (fast slow : ℚ) : Bool :=
  if direction == "above" then decide (fast > slow) else decide (fast < slow)

/-- `(rv < med) if rule.relation == "below" else (rv > med)`. -/
def volCondMet (relation : String) (rv med : ℚ) : Bool :=
  if relation == "below" then decide (rv < med) else decide (rv > med)

/-- Translation of `_evaluate_crossover` (backtester.py lines 81-147).
Every early `return False` of a loop body becomes a `false` branch of the
`List.all` / `List.any` predicate; `continue` contributes `false` to the
`any`. -/
def evaluate_crossover (rule : CrossoverRule) (row_idx : Nat) (df : Table) : Bool :=
  if !(df.hasMA rule.fast_ma && df.hasMA rule.slow_ma) then false else
  match rule.duration_days with
  | some duration =>
    -- condition must be true for `duration` consecutive days ending today
    if (row_idx : Int) < duration - 1 then false else
    (List.range duration.toNat).all fun offset =>
      if row_idx < offset then false else  -- `check_idx < 0` guard
      match df.ma rule.fast_ma (row_idx - offset), df.ma rule.slow_ma (row_idx - offset) with
      | some fast, some slow => crossCondMet rule.direction fast slow
      | _, _ => false
  | none =>
    match rule.lookahead_days with
    | some lookahead =>
      -- condition true within the next `lookahead` days (current day included)
      (List.range (lookahead + 1).toNat).any fun offset =>
        if df.n ≤ row_idx + offset then false else  -- `check_idx >= n` skip
        match df.ma rule.fast_ma (row_idx + offset), df.ma rule.slow_ma (row_idx + offset) with
        | some fast, some slow => crossCondMet rule.direction fast slow
        | _, _ => false
    | none =>
      -- standard evaluation: current row only
      match df.ma rule.fast_ma row_idx, df.ma rule.slow_ma row_idx with
      | some fast, some slow => crossCondMet rule.direction fast slow
      | _, _ => false

/-- Translation of `_evaluate_vol_filter` (backtester.py lines 150-216). -/
def evaluate_vol_filter (rule : VolFilterRule) (row_idx : Nat) (df : Table) : Bool :=
  if !(df.hasRV rule.window && df.hasRVMed rule.window) then false else
  match rule.duration_days with
  | some duration =>
    if (row_idx : Int) < duration - 1 then false else
    (List.range duration.toNat).all fun offset =>
      if row_idx < offset then false else
      match df.rv rule.window (row_idx - offset), df.rvMed rule.window (row_idx - offset) with
      | some rv, some med => volCondMet rule.relation rv med
      | _, _ => false
  | none =>
    match rule.lookahead_days with
    | some lookahead =>
      (List.range (lookahead + 1).toNat).any fun offset =>
        if df.n ≤ row_idx + offset then false else
        match df.rv rule.window (row_idx + offset), df.rvMed rule.window (row_idx + offset) with
        | some rv, some med => volCondMet rule.relation rv med
        | _, _ => false
    | none =>
      match df.rv rule.window row_idx, df.rvMed rule.window row_idx with
      | some rv, some med => volCondMet rule.relation rv med
      | _, _ => false

/-- Dispatch on the rule variant, as done by `isinstance` checks at every
call site of the two evaluators. -/
def evalRule : Rule → Nat → Table → Bool
  | .crossover r, row_idx, df => evaluate_crossover r row_idx df
  | .vol_filter r, row_idx, df => evaluate_vol_filter r row_idx df

/-- Spec-side definition of the *instantaneous* condition of a rule at one
day, following the spec's words for instantaneous mode: read the two
relevant columns at `day_index`; a missing column or a missing/NaN value
makes the condition false; otherwise apply the comparison. -/
def ruleInstSpec : Rule → Nat → Table → Bool
  | .crossover r, day_index, df =>
    df.hasMA r.fast_ma && df.hasMA r.slow_ma &&
      (match df.ma r.fast_ma day_index, df.ma r.slow_ma day_index with
       | some fast, some slow => crossCondMet r.direction fast slow
       | _, _ => false)
  | .vol_filter r, day_index, df =>
    df.hasRV r.window && df.hasRVMed r.window &&
      (match df.rv r.window day_index, df.rvMed r.window day_index with
       | some rv, some med => volCondMet r.relation rv med
       | _, _ => false)

/-- Replace a rule's `lookahead_days` field, leaving all else unchanged. -/
def Rule.withLookahead : Rule → Option Int → Rule
  | .crossover r, la => .crossover { r with lookahead_days := la }
  | .vol_filter r, la => .vol_filter { r with lookahead_days := la }

/-- A 4-day table with `ma_1`, `ma_2`, `rv_20` and `rv_20_med_252`
columns.  The fast MA exceeds the slow MA on days 2 and 3 only; realized
volatility is below its median on day 2 only. -/
def dfA : Table where
  n := 4
  hasMA := fun w => decide (w = 1) || decide (w = 2)
  ma := fun w i =>
    if w = 1 then [some 1, some 1, some 5, some 5].getD i none
    else if w = 2 then [some 3, some 3, some 3, some 3].getD i none
    else none
  hasRV := fun w => decide (w = 20)
  rv := fun w i => if w = 20 then [some 9, some 9, some 1, some 9].getD i none else none
  hasRVMed := fun w => decide (w = 20)
  rvMed := fun w i => if w = 20 then [some 5, some 5, some 5, some 5].getD i none else none
  close := fun i => ([10, 11, 12, 13] : List ℚ).getD i 0
  ret := fun i => ([0, 1, 0, 0] : List ℚ).getD i 0
  dateStr := fun i => toString i

/-- A crossover rule requiring the fast MA above the slow MA for two
consecutive days. -/
def crossDur2 : Rule :=
  .crossover { fast_ma := 1, slow_ma := 2, direction := "above", duration_days := some 2 }

/-- A volatility filter looking ahead three days for volatility below the
median. -/
def volLook3 : Rule :=
  .vol_filter { window := 20, threshold := "median_1y", relation := "below",
                lookahead_days := some 3 }

/-- Replace both temporal modifier fields of a rule. -/
def Rule.withTemporal : Rule → Option Int → Option Int → Rule
  | .crossover r, la, du => .crossover { r with lookahead_days := la, duration_days := du }
  | .vol_filter r, la, du => .vol_filter { r with lookahead_days := la, duration_days := du }

/-- State-passing translation of `_evaluate_rule_at_index` (backtester.py
lines 235-256).  The Python function mutates the rule object in place: it
saves the two modifier fields, assigns `None` to both, evaluates, then
assigns the saved values back.  The mutable object is threaded
explicitly: the result is the returned boolean paired with the rule
object's final state. -/
def evaluate_rule_at_index_st (rule : Rule) (row_idx : Nat) (df : Table) : Bool × Rule :=
  let original_lookahead := rule.lookahead_days
  let original_duration := rule.duration_days
  let stripped := rule.withTemporal none none
  let result := evalRule stripped row_idx df
  (result, stripped.withTemporal original_lookahead original_duration)

/-- The boolean returned by `_evaluate_rule_at_index`. -/
def evaluate_rule_at_index (rule : Rule) (row_idx : Nat) (df : Table) : Bool :=
  (evaluate_rule_at_index_st rule row_idx df).1

/-- The successive states of the (mutable) rule object during a call of
`_evaluate_rule_at_index`: initial, after both modifier fields are
assigned `None`, and after the saved values are assigned back. -/
def rule_at_index_states (rule : Rule) : List Rule :=
  [rule, rule.withTemporal none none,
   (rule.withTemporal none none).withTemporal rule.lookahead_days rule.duration_days]

/-- Translation of `_evaluate_sequential_entry` (backtester.py lines
259-297): first rule at the anchor day (modifiers ignored), each
subsequent rule within its own lookahead window, or at the anchor day if
it has none.  The `break` on `check_idx >= n` is equivalent to skipping
the remaining offsets, which are all out of range as well. -/
def evaluate_sequential_entry (rules : List Rule) (row_idx : Nat) (df : Table) : Bool :=
  match rules with
  | [] => false
  | first_rule :: rest =>
    if !(evaluate_rule_at_index first_rule row_idx df) then false else
    rest.all fun rule =>
      match rule.lookahead_days with
      | none => evaluate_rule_at_index rule row_idx df
      | some lookahead =>
        (List.range (lookahead + 1).toNat).any fun offset =>
          if df.n ≤ row_idx + offset then false else
          evaluate_rule_at_index rule (row_idx + offset) df

/-- Translation of `_evaluate_rules` (backtester.py lines 219-232):
all entry rules must be true (AND, short-circuit in rule order). -/
def evaluate_rules (rules : List Rule) (row_idx : Nat) (df : Table) : Bool :=
  rules.all fun rule => evalRule rule row_idx df

/-- The exit scan of `run_backtest` (lines 322-331): any exit rule true,
scanned in declared order with a break on the first hit. -/
def exitAny (rules : List Rule) (row_idx : Nat) (df : Table) : Bool :=
  rules.any fun rule => evalRule rule row_idx df

/-- Entry decision of the simulator (lines 315-319). -/
def entryOk (spec : StrategySpec) (i : Nat) (df : Table) : Bool :=
  if spec.entry_sequential then evaluate_sequential_entry spec.entry_rules i df
  else evaluate_rules spec.entry_rules i df

/-- One day of the FLAT/LONG state machine (lines 333-336). -/
def simStep (spec : StrategySpec) (df : Table) (pos : ℚ) (i : Nat) : ℚ :=
  if pos = 0 ∧ entryOk spec i df = true then 1
  else if pos = 1 ∧ exitAny spec.exit_rules i df = true then 0
  else pos

/-- The day loop of `run_backtest` from day `i`, with `fuel` days left and
current position `pos`; returns the recorded positions. -/
def simFrom (spec : StrategySpec) (df : Table) : Nat → Nat → ℚ → List ℚ
  | _, 0, _ => []
  | i, fuel + 1, pos =>
    let p := simStep spec df pos i
    p :: simFrom spec df (i + 1) fuel p

/-- The `position` column produced by `run_backtest` (lines 310-340). -/
def run_backtest_positions (spec : StrategySpec) (df : Table) : List ℚ :=
  simFrom spec df 0 df.n 0

/-- The simulator's position after it has processed days `0..i`. -/
def posAt (spec : StrategySpec) (df : Table) : Nat → ℚ
  | 0 => simStep spec df 0 0
  | i + 1 => simStep spec df (posAt spec df i) (i + 1)

/-- The position held entering day `i` (FLAT before day 0). -/
def posPrev (spec : StrategySpec) (df : Table) (i : Nat) : ℚ :=
  if i = 0 then 0 else posAt spec df (i - 1)

/-- Iterating the state machine from position `pos` over days `i..i+k`. -/
def iterSteps (spec : StrategySpec) (df : Table) (pos : ℚ) (i : Nat) : Nat → ℚ
  | 0 => simStep spec df pos i
  | k + 1 => iterSteps spec df (simStep spec df pos i) (i + 1) k

/-- An instantaneous crossover rule (fast above slow). -/
def crossInst : Rule :=
  .crossover { fast_ma := 1, slow_ma := 2, direction := "above" }

/-- An instantaneous crossover rule (fast below slow). -/
def crossBelow : Rule :=
  .crossover { fast_ma := 1, slow_ma := 2, direction := "below" }

/-- A simple AND-entry strategy: enter above-crossover, exit
below-crossover.  On `dfA` it enters on day 2 and never exits. -/
def specA : StrategySpec where
  ticker := "SPY"
  start_date := 0
  end_date := 4
  entry_rules := [crossInst]
  exit_rules := [crossBelow]
  metrics := ["cagr"]

/-- A sequential-entry strategy: first the crossover, then the volatility
filter within three days. -/
def specSeq : StrategySpec where
  ticker := "SPY"
  start_date := 0
  end_date := 4
  entry_rules := [crossInst, volLook3]
  exit_rules := [crossBelow]
  metrics := ["cagr"]
  entry_sequential := true

/-- The `strategy_return` column (backtester.py line 343):
`position.shift(1).fillna(0) * return` — yesterday's recorded position
times today's raw return, with day 0 getting a zero prior position. -/
def strategy_returns (spec : StrategySpec) (df : Table) : List ℚ :=
  (List.range df.n).map fun t =>
    (if t = 0 then 0 else (run_backtest_positions spec df).getD (t - 1) 0) * df.ret t

/-- Running cumulative product (`cumprod`) with accumulator `acc`. -/
def cumprodAux (acc : ℚ) : List ℚ → List ℚ
  | [] => []
  | x :: xs => (acc * x) :: cumprodAux (acc * x) xs

/-- The `equity_curve` column (line 344): cumulative product of
`1 + strategy_return`. -/
def equity_curve (spec : StrategySpec) (df : Table) : List ℚ :=
  cumprodAux 1 ((strategy_returns spec df).map fun r => 1 + r)

/-- Translation of the `Trade` dataclass (backtester.py lines 12-21). -/
structure Trade where
  entry_date : String
  entry_price : ℚ
  entry_reason : String
  exit_date : Option String := none
  exit_price : Option ℚ := none
  exit_reason : Option String := none
  pnl_pct : Option ℚ := none
deriving DecidableEq

/-- Default used only for safe list indexing in statements. -/
def dummyTrade : Trade :=
  { entry_date := "", entry_price := 0, entry_reason := "" }

/-- Exact rendering of a rational value (`%.2f` float formatting is
abstracted; no claim depends on the rendered digits). -/
def fmtQ (q : ℚ) : String := toString q.num ++ "/" ++ toString q.den

/-- Rendering of a possibly missing cell. -/
def fmtCell : Option ℚ → String
  | some q => fmtQ q
  | none => "nan"

/-- Translation of `_format_crossover_reason` (lines 33-41). -/
def format_crossover_reason (rule : CrossoverRule) (i : Nat) (df : Table)
    (is_entry : Bool) : String :=
  let action := if is_entry then "Entry" else "Exit"
  let direction := if rule.direction == "above" then "above" else "below"
  action ++ ": " ++ toString rule.fast_ma ++ "-day MA (" ++
    fmtCell (df.ma rule.fast_ma i) ++ ") crossed " ++ direction ++ " " ++
    toString rule.slow_ma ++ "-day MA (" ++ fmtCell (df.ma rule.slow_ma i) ++ ")"

/-- Translation of `_format_vol_filter_reason` (lines 44-52). -/
def format_vol_filter_reason (rule : VolFilterRule) (i : Nat) (df : Table)
    (is_entry : Bool) : String :=
  let action := if is_entry then "Entry" else "Exit"
  let relation := if rule.relation == "below" then "below" else "above"
  action ++ ": " ++ toString rule.window ++ "-day RV (" ++
    fmtCell (df.rv rule.window i) ++ ") " ++ relation ++ " 1Y median (" ++
    fmtCell (df.rvMed rule.window i) ++ ")"

/-- Reason rendering dispatched on the rule variant. -/
def formatRuleReason : Rule → Nat → Table → Bool → String
  | .crossover r, i, df, is_entry => format_crossover_reason r i df is_entry
  | .vol_filter r, i, df, is_entry => format_vol_filter_reason r i df is_entry

/-- Translation of `_get_triggered_rules` (lines 55-78): evaluate all
rules, collect reasons of the ones that passed, and report whether all
passed. -/
def get_triggered_rules (rules : List Rule) (row_idx : Nat) (df : Table)
    (is_entry : Bool) : Bool × List String :=
  rules.foldl
    (fun acc rule =>
      let passed := evalRule rule row_idx df
      (acc.1 && passed,
       if passed then acc.2 ++ [formatRuleReason rule row_idx df is_entry] else acc.2))
    (true, [])

/-- The exit scan of `extract_trades` (lines 411-423): first exit rule
(in declared order) that fires determines the result and the reason. -/
def exitScan (rules : List Rule) (row_idx : Nat) (df : Table) : Bool × List String :=
  match rules.find? (fun rule => evalRule rule row_idx df) with
  | some rule => (true, [formatRuleReason rule row_idx df false])
  | none => (false, [])

/-- The sequential entry-reason block of `extract_trades` (lines
378-406): the first rule's reason at the anchor day, then for every
subsequent rule the reason at the first in-range day of its window on
which its exact-day check fires (the anchor day itself if it declares no
lookahead and never fires). -/
def seqEntryReasons (spec : StrategySpec) (df : Table) (i : Nat) : List String :=
  match spec.entry_rules with
  | [] => []
  | first_rule :: rest =>
    formatRuleReason first_rule i df true ::
    rest.flatMap fun rule =>
      let lookahead := rule.lookahead_days.getD 0
      match (List.range (lookahead + 1).toNat).find? (fun offset =>
          decide (i + offset < df.n) && evaluate_rule_at_index rule (i + offset) df) with
      | some offset => [formatRuleReason rule (i + offset) df true]
      | none =>
        if rule.lookahead_days = none then [formatRuleReason rule i df true] else []

/-- Entry decision and reasons of `extract_trades` (lines 374-408). -/
def extEntryPair (spec : StrategySpec) (df : Table) (i : Nat) : Bool × List String :=
  if spec.entry_sequential then
    let entry_ok := evaluate_sequential_entry spec.entry_rules i df
    (entry_ok, if entry_ok then seqEntryReasons spec df i else [])
  else
    get_triggered_rules spec.entry_rules i df true

/-- `" | ".join(reasons) if reasons else default`. -/
def joinReasons (reasons : List String) (dflt : String) : String :=
  if reasons.isEmpty then dflt else String.intercalate " | " reasons

/-- The loop state of `extract_trades`: current position, open trade, and
completed trades in order. -/
structure ExtState where
  position : ℚ
  current_trade : Option Trade
  trades : List Trade

/-- One day of the reconstructor's own FLAT/LONG state machine
(backtester.py lines 360-443). -/
def extStep (spec : StrategySpec) (df : Table) (s : ExtState) (i : Nat) : ExtState :=
  let date_str := df.dateStr i
  let close_price := df.close i
  if s.position = 0 ∧ (extEntryPair spec df i).1 = true then
    { s with
      position := 1
      current_trade := some {
        entry_date := date_str
        entry_price := close_price
        entry_reason := joinReasons (extEntryPair spec df i).2 "All entry rules satisfied" } }
  else if s.position = 1 ∧ (exitScan spec.exit_rules i df).1 = true ∧
      s.current_trade.isSome = true then
    match s.current_trade with
    | some t =>
      { position := 0
        current_trade := none
        trades := s.trades ++ [{ t with
          exit_date := some date_str
          exit_price := some close_price
          exit_reason := some (joinReasons (exitScan spec.exit_rules i df).2 "Exit rule triggered")
          pnl_pct := some ((close_price / t.entry_price - 1) * 100) }] }
    | none => s
  else s

/-- The day loop of `extract_trades` from day `i` with `fuel` days left. -/
def extFrom (spec : StrategySpec) (df : Table) : Nat → Nat → ExtState → ExtState
  | _, 0, s => s
  | i, fuel + 1, s => extFrom spec df (i + 1) fuel (extStep spec df s i)

/-- Translation of `extract_trades` (lines 349-461): run the day loop
from a FLAT start, then close a trade still open at the last bar
synthetically at the final close. -/
def extract_trades (spec : StrategySpec) (df : Table) : List Trade :=
  let s := extFrom spec df 0 df.n { position := 0, current_trade := none, trades := [] }
  match s.current_trade with
  | some t =>
    if s.position = 1 then
      s.trades ++ [{ t with
        exit_date := some (df.dateStr (df.n - 1))
        exit_price := some (df.close (df.n - 1))
        exit_reason := some "End of backtest period (still holding)"
        pnl_pct := some ((df.close (df.n - 1) / t.entry_price - 1) * 100) }]
    else s.trades
  | none => s.trades

/-- The simulator's recorded position column, indexed with default 0. -/
def posCol (spec : StrategySpec) (df : Table) (i : Nat) : ℚ :=
  (run_backtest_positions spec df).getD i 0

/-- Day `i` is a 0→1 transition of the simulator's position column. -/
def isEntryTransition (spec : StrategySpec) (df : Table) (i : Nat) : Bool :=
  decide ((if i = 0 then (0 : ℚ) else posCol spec df (i - 1)) = 0 ∧ posCol spec df i = 1)

/-- Day `i` is a 1→0 transition of the simulator's position column. -/
def isExitTransition (spec : StrategySpec) (df : Table) (i : Nat) : Bool :=
  decide ((if i = 0 then (0 : ℚ) else posCol spec df (i - 1)) = 1 ∧ posCol spec df i = 0)

/-- The days of 0→1 transitions of the simulator's position column. -/
def entry_transition_days (spec : StrategySpec) (df : Table) : List Nat :=
  (List.range df.n).filter (isEntryTransition spec df)

/-- The days of 1→0 transitions of the simulator's position column. -/
def exit_transition_days (spec : StrategySpec) (df : Table) : List Nat :=
  (List.range df.n).filter (isExitTransition spec df)

/-- `posAt`-phrased transition predicates, used by the loop invariant. -/
def entryTransAt (spec : StrategySpec) (df : Table) (i : Nat) : Bool :=
  decide (posPrev spec df i = 0 ∧ posAt spec df i = 1)

def exitTransAt (spec : StrategySpec) (df : Table) (i : Nat) : Bool :=
  decide (posPrev spec df i = 1 ∧ posAt spec df i = 0)

def entryDaysUpTo (spec : StrategySpec) (df : Table) (m : Nat) : List Nat :=
  (List.range m).filter (entryTransAt spec df)

def exitDaysUpTo (spec : StrategySpec) (df : Table) (m : Nat) : List Nat :=
  (List.range m).filter (exitTransAt spec df)

/-- Joint loop invariant: before processing day `i`, the reconstructor's
state agrees with the simulator's position, the open trade corresponds to
a pending 0→1 transition, and the completed trades match the completed
transition pairs among days `< i`. -/
def ExtInv (spec : StrategySpec) (df : Table) (i : Nat) (s : ExtState) : Prop :=
  s.position = posPrev spec df i ∧
  (s.position = 0 → s.current_trade = none ∧
    (entryDaysUpTo spec df i).length = s.trades.length) ∧
  (s.position = 1 →
    (∃ t, s.current_trade = some t ∧
      t.entry_date = df.dateStr ((entryDaysUpTo spec df i).getD s.trades.length 0)) ∧
    (entryDaysUpTo spec df i).length = s.trades.length + 1) ∧
  s.trades.length = (exitDaysUpTo spec df i).length ∧
  (∀ k, k < s.trades.length →
    (s.trades.getD k dummyTrade).entry_date =
      df.dateStr ((entryDaysUpTo spec df i).getD k 0) ∧
    (s.trades.getD k dummyTrade).exit_date =
      some (df.dateStr ((exitDaysUpTo spec df i).getD k 0)))

/-- Translation of `ValidationResult` (validator.py lines 12-16). -/
structure ValidationResult where
  ok : Bool
  errors : List String
  warnings : List String
deriving DecidableEq

/-- First-seen-order deduplication, as `list(dict.fromkeys(...))`. -/
def dedupFirstAux {α : Type} [DecidableEq α] (seen : List α) : List α → List α
  | [] => []
  | x :: xs =>
    if x ∈ seen then dedupFirstAux seen xs
    else x :: dedupFirstAux (x :: seen) xs

def dedupFirst {α : Type} [DecidableEq α] (l : List α) : List α :=
  dedupFirstAux [] l

/-- Per-rule errors of the validator's rule loop (lines 37-55), in
appended order. -/
def ruleErrors : Rule → List String
  | .crossover r =>
    (if r.fast_ma ≤ 0 ∨ r.slow_ma ≤ 0
     then ["Moving average windows must be positive integers."] else []) ++
    (if r.fast_ma = r.slow_ma
     then ["Fast and slow moving averages must differ."] else [])
  | .vol_filter r =>
    if r.window ≤ 1 then ["Volatility window must be greater than 1."] else []

/-- Per-rule warnings of the validator's rule loop (lines 43-57). -/
def ruleWarnings : Rule → List String
  | .crossover r =>
    (if r.fast_ma < 5 ∨ r.slow_ma < 5
     then ["Very small moving average windows (under 5 days) may be unstable or overly reactive."]
     else []) ++
    (if r.fast_ma > 200 ∨ r.slow_ma > 200
     then ["Very large moving average windows (over 200 days) may make the strategy slow and unresponsive."]
     else [])
  | .vol_filter r =>
    if r.window > 252 * 5
    then ["Very large volatility windows may dilute signal responsiveness."] else []

/-- `crossover_entry` dict keys in first-insertion order (lines 48-50). -/
def crossoverKeys (rules : List Rule) : List (Int × Int) :=
  dedupFirst (rules.flatMap fun rule =>
    match rule with
    | .crossover r => [(r.fast_ma, r.slow_ma)]
    | .vol_filter _ => [])

/-- The directions added to `crossover_entry[key]` (lines 51-52): the
direction of every crossover rule with that key that is a member of the
entry rule list. -/
def crossoverDirs (spec : StrategySpec) (key : Int × Int) : List String :=
  (spec.entry_rules ++ spec.exit_rules).flatMap fun rule =>
    match rule with
    | .crossover r =>
      if (r.fast_ma, r.slow_ma) = key ∧ Rule.crossover r ∈ spec.entry_rules
      then [r.direction] else []
    | .vol_filter _ => []

/-- `vol_entry` dict keys in first-insertion order (lines 58-60). -/
def volKeys (rules : List Rule) : List (Int × String) :=
  dedupFirst (rules.flatMap fun rule =>
    match rule with
    | .crossover _ => []
    | .vol_filter r => [(r.window, r.threshold)])

/-- The relations added to `vol_entry[key]` (lines 61-62). -/
def volRels (spec : StrategySpec) (key : Int × String) : List String :=
  (spec.entry_rules ++ spec.exit_rules).flatMap fun rule =>
    match rule with
    | .crossover _ => []
    | .vol_filter r =>
      if (r.window, r.threshold) = key ∧ Rule.vol_filter r ∈ spec.entry_rules
      then [r.relation] else []

/-- The crossover-contradiction errors (lines 64-66), one per key whose
direction set holds both "above" and "below". -/
def crossContraErrors (spec : StrategySpec) : List String :=
  (crossoverKeys (spec.entry_rules ++ spec.exit_rules)).flatMap fun key =>
    if "above" ∈ crossoverDirs spec key ∧ "below" ∈ crossoverDirs spec key
    then ["Entry rules require the same moving averages to be both above and below each other, which is impossible."]
    else []

/-- The volatility-contradiction errors (lines 68-70). -/
def volContraErrors (spec : StrategySpec) : List String :=
  (volKeys (spec.entry_rules ++ spec.exit_rules)).flatMap fun key =>
    if "above" ∈ volRels spec key ∧ "below" ∈ volRels spec key
    then ["Entry rules require volatility to be both above and below the same threshold, which is impossible."]
    else []

/-- All errors appended by `validate_spec` (lines 23-70), before
deduplication, in append order. -/
def rawErrors (spec : StrategySpec) : List String :=
  (if spec.start_date ≥ spec.end_date
   then ["Start date must be before end date."] else []) ++
  (if spec.entry_rules.isEmpty
   then ["At least one entry rule is required."] else []) ++
  (if spec.exit_rules.isEmpty
   then ["At least one exit rule is required."] else []) ++
  (spec.entry_rules ++ spec.exit_rules).flatMap ruleErrors ++
  crossContraErrors spec ++ volContraErrors spec

/-- All warnings appended by `validate_spec`, before deduplication. -/
def rawWarnings (spec : StrategySpec) : List String :=
  (if spec.metrics.isEmpty
   then ["No metrics specified; default metrics will be used."] else []) ++
  (spec.entry_rules ++ spec.exit_rules).flatMap ruleWarnings

/-- Translation of `validate_spec` (validator.py lines 19-76). -/
def validate_spec (spec : StrategySpec) : ValidationResult :=
  let errors := dedupFirst (rawErrors spec)
  let warnings := dedupFirst (rawWarnings spec)
  { ok := errors.isEmpty, errors := errors, warnings := warnings }

/-- The contradictory 10/50 entry rules of the spec's test scenario. -/
def contraAbove : Rule :=
  .crossover { fast_ma := 10, slow_ma := 50, direction := "above" }

def contraBelow : Rule :=
  .crossover { fast_ma := 10, slow_ma := 50, direction := "below" }

/-- The crossover-contradiction error message. -/
def contraMsg : String :=
  "Entry rules require the same moving averages to be both above and below each other, which is impossible."

/-- A contradictory strategy: both 10/50 directions as entry rules. -/
def specContra : StrategySpec where
  ticker := "SPY"
  start_date := 0
  end_date := 4
  entry_rules := [contraAbove, contraBelow]
  exit_rules := [crossBelow]
  metrics := ["cagr"]

/-- A rule object of the interchange format: a JSON dict whose keys are
optional (`none` models an absent key, matching `dict.get`). -/
structure RuleDict where
  rtype : Option String := none
  lookahead_days : Option Int := none
  duration_days : Option Int := none
  fast_ma : Option Int := none
  slow_ma : Option Int := none
  direction : Option String := none
  window : Option Int := none
  threshold : Option String := none
  relation : Option String := none
deriving DecidableEq

/-- The interchange form of a specification.  Dates travel as their day
ordinals; the `isoformat`/`fromisoformat` string round-trip is abstracted
to the identity on valid dates. -/
structure SpecDict where
  ticker : String
  start_date : Int
  end_date : Int
  entry_rules : List RuleDict
  exit_rules : List RuleDict
  metrics : Option (List String) := none
  entry_sequential : Option Bool := none
deriving DecidableEq

/-- Translation of `rule_to_dict` inside `StrategySpec.to_dict`
(strategy_spec.py lines 48-70): modifier keys are included only when set,
which the `Option` fields model exactly. -/
def rule_to_dict : Rule → RuleDict
  | .crossover r =>
    { rtype := some "crossover"
      lookahead_days := r.lookahead_days
      duration_days := r.duration_days
      fast_ma := some r.fast_ma
      slow_ma := some r.slow_ma
      direction := some r.direction }
  | .vol_filter r =>
    { rtype := some "vol_filter"
      lookahead_days := r.lookahead_days
      duration_days := r.duration_days
      window := some r.window
      threshold := some r.threshold
      relation := some r.relation }

/-- Translation of `StrategySpec.to_dict` (lines 47-82): the
`entry_sequential` key is emitted only when the flag is true. -/
def StrategySpec.to_dict (spec : StrategySpec) : SpecDict :=
  { ticker := spec.ticker
    start_date := spec.start_date
    end_date := spec.end_date
    entry_rules := spec.entry_rules.map rule_to_dict
    exit_rules := spec.exit_rules.map rule_to_dict
    metrics := some spec.metrics
    entry_sequential := if spec.entry_sequential then some true else none }

/-- Translation of `_parse_rule` (lines 85-111); a `KeyError` on a
required field and the unknown-type `ValueError` become `Except.error`. -/
def parse_rule (d : RuleDict) : Except String Rule :=
  match d.rtype with
  | some "crossover" =>
    match d.fast_ma, d.slow_ma, d.direction with
    | some f, some sl, some dir =>
      .ok (.crossover
        { fast_ma := f
          slow_ma := sl
          direction := dir
          lookahead_days := d.lookahead_days
          duration_days := d.duration_days })
    | _, _, _ => .error "KeyError"
  | some "vol_filter" =>
    match d.window with
    | some w =>
      .ok (.vol_filter
        { window := w
          threshold := d.threshold.getD "median_1y"
          relation := d.relation.getD "below"
          lookahead_days := d.lookahead_days
          duration_days := d.duration_days })
    | none => .error "KeyError"
  | _ => .error "Unknown rule type"

/-- Translation of `parse_strategy_spec` (lines 114-143). -/
def parse_strategy_spec (data : SpecDict) : Except String StrategySpec := do
  let entry_rules ← data.entry_rules.mapM parse_rule
  let exit_rules ← data.exit_rules.mapM parse_rule
  if entry_rules.isEmpty then
    throw "At least one entry rule is required."
  else if exit_rules.isEmpty then
    throw "At least one exit rule is required."
  else
    pure { ticker := data.ticker.toUpper.trim
           start_date := data.start_date
           end_date := data.end_date
           entry_rules := entry_rules
           exit_rules := exit_rules
           metrics := data.metrics.getD ["cagr", "max_drawdown", "sharpe"]
           entry_sequential := data.entry_sequential.getD false }

/-! ## Theorems -/

/-- The duration loop of both evaluators, for a pointwise day predicate
`p`: all days of the trailing window must satisfy `p`. -/
theorem duration_loop_iff (p : Nat → Bool) (d : Int) (i : Nat)
    (h1 : 1 ≤ d) (hi : d - 1 ≤ (i : Int)) :
    ((List.range d.toNat).all fun offset =>
      if i < offset then false else p (i - offset)) = true ↔
    ∀ j : Nat, (i : Int) - d + 1 ≤ (j : Int) → j ≤ i → p j = true := by
  rw [List.all_eq_true]
  constructor
  · intro h j hj1 hj2
    have hoff : i - j < d.toNat := by omega
    have ho := h (i - j) (List.mem_range.mpr hoff)
    rw [if_neg (by omega)] at ho
    rwa [Nat.sub_sub_self hj2] at ho
  · intro h offset hmem
    rw [List.mem_range] at hmem
    rw [if_neg (by omega)]
    exact h (i - offset) (by omega) (by omega)

/-- The lookahead loop of both evaluators, for a pointwise day predicate
`p`: some in-range day of the forward window must satisfy `p`. -/
theorem lookahead_loop_iff (p : Nat → Bool) (L : Int) (i n : Nat) :
    ((List.range (L + 1).toNat).any fun offset =>
      if n ≤ i + offset then false else p (i + offset)) = true ↔
    ∃ j : Nat, i ≤ j ∧ (j : Int) ≤ (i : Int) + L ∧ j < n ∧ p j = true := by
  rw [List.any_eq_true]
  constructor
  · rintro ⟨offset, hmem, hp⟩
    rw [List.mem_range] at hmem
    by_cases hn : n ≤ i + offset
    · rw [if_pos hn] at hp
      exact absurd hp (by simp)
    · rw [if_neg hn] at hp
      exact ⟨i + offset, by omega, by omega, by omega, hp⟩
  · rintro ⟨j, hij, hjL, hjn, hp⟩
    refine ⟨j - i, List.mem_range.mpr (by omega), ?_⟩
    rw [Nat.add_sub_cancel' hij, if_neg (by omega)]
    exact hp

/-- C1: duration mode fails closed — with `duration_days = d` set, the
evaluator returns true iff the trailing window does not run off the start
of history and the instantaneous condition (false on missing/NaN data)
holds on every day in `[i - d + 1, i]`. -/
theorem duration_mode_fails_closed (r : Rule) (d : Int) (row_idx : Nat) (df : Table)
    (hd : r.duration_days = some d) (h1 : 1 ≤ d) :
    evalRule r row_idx df = true ↔
      (d - 1 ≤ (row_idx : Int) ∧
       ∀ j : Nat, (row_idx : Int) - d + 1 ≤ (j : Int) → j ≤ row_idx →
         ruleInstSpec r j df = true) := by
  cases r with
  | crossover c =>
    simp only [Rule.duration_days] at hd
    simp only [evalRule, evaluate_crossover, hd]
    by_cases hcols : (df.hasMA c.fast_ma && df.hasMA c.slow_ma) = true
    · rw [if_neg (by simp [hcols])]
      by_cases hi : (row_idx : Int) < d - 1
      · rw [if_pos hi]
        refine iff_of_false (by simp) ?_
        rintro ⟨h2, -⟩
        omega
      · rw [if_neg hi]
        rw [duration_loop_iff
          (fun j => match df.ma c.fast_ma j, df.ma c.slow_ma j with
            | some fast, some slow => crossCondMet c.direction fast slow
            | _, _ => false) d row_idx h1 (by omega)]
        have hinst : ∀ j, ruleInstSpec (.crossover c) j df =
            (match df.ma c.fast_ma j, df.ma c.slow_ma j with
             | some fast, some slow => crossCondMet c.direction fast slow
             | _, _ => false) := by
          intro j
          simp [ruleInstSpec, hcols]
        constructor
        · intro h
          exact ⟨by omega, fun j hj1 hj2 => by rw [hinst]; exact h j hj1 hj2⟩
        · rintro ⟨-, h⟩ j hj1 hj2
          have := h j hj1 hj2
          rwa [hinst] at this
    · rw [Bool.not_eq_true] at hcols
      rw [if_pos (by simp [hcols])]
      refine iff_of_false (by simp) ?_
      rintro ⟨h2, hall⟩
      have hrr := hall row_idx (by omega) le_rfl
      simp only [ruleInstSpec] at hrr
      rw [hcols] at hrr
      simp at hrr
  | vol_filter c =>
    simp only [Rule.duration_days] at hd
    simp only [evalRule, evaluate_vol_filter, hd]
    by_cases hcols : (df.hasRV c.window && df.hasRVMed c.window) = true
    · rw [if_neg (by simp [hcols])]
      by_cases hi : (row_idx : Int) < d - 1
      · rw [if_pos hi]
        refine iff_of_false (by simp) ?_
        rintro ⟨h2, -⟩
        omega
      · rw [if_neg hi]
        rw [duration_loop_iff
          (fun j => match df.rv c.window j, df.rvMed c.window j with
            | some rv, some med => volCondMet c.relation rv med
            | _, _ => false) d row_idx h1 (by omega)]
        have hinst : ∀ j, ruleInstSpec (.vol_filter c) j df =
            (match df.rv c.window j, df.rvMed c.window j with
             | some rv, some med => volCondMet c.relation rv med
             | _, _ => false) := by
          intro j
          simp [ruleInstSpec, hcols]
        constructor
        · intro h
          exact ⟨by omega, fun j hj1 hj2 => by rw [hinst]; exact h j hj1 hj2⟩
        · rintro ⟨-, h⟩ j hj1 hj2
          have := h j hj1 hj2
          rwa [hinst] at this
    · rw [Bool.not_eq_true] at hcols
      rw [if_pos (by simp [hcols])]
      refine iff_of_false (by simp) ?_
      rintro ⟨h2, hall⟩
      have hrr := hall row_idx (by omega) le_rfl
      simp only [ruleInstSpec] at hrr
      rw [hcols] at hrr
      simp at hrr

/-- C2: lookahead mode fails open — with `lookahead_days = L` set and no
`duration_days`, the evaluator returns true iff the instantaneous
condition holds on at least one in-range day of `[i, i + L]`; out-of-range
days and missing/NaN days are skipped, never counted as pass or fail. -/
theorem lookahead_mode_fails_open (r : Rule) (L : Int) (row_idx : Nat) (df : Table)
    (hL : r.lookahead_days = some L) (hd : r.duration_days = none) :
    evalRule r row_idx df = true ↔
      ∃ j : Nat, row_idx ≤ j ∧ (j : Int) ≤ (row_idx : Int) + L ∧ j < df.n ∧
        ruleInstSpec r j df = true := by
  cases r with
  | crossover c =>
    simp only [Rule.lookahead_days] at hL
    simp only [Rule.duration_days] at hd
    simp only [evalRule, evaluate_crossover, hd, hL]
    by_cases hcols : (df.hasMA c.fast_ma && df.hasMA c.slow_ma) = true
    · rw [if_neg (by simp [hcols])]
      rw [lookahead_loop_iff
        (fun j => match df.ma c.fast_ma j, df.ma c.slow_ma j with
          | some fast, some slow => crossCondMet c.direction fast slow
          | _, _ => false) L row_idx df.n]
      have hinst : ∀ j, ruleInstSpec (.crossover c) j df =
          (match df.ma c.fast_ma j, df.ma c.slow_ma j with
           | some fast, some slow => crossCondMet c.direction fast slow
           | _, _ => false) := by
        intro j
        simp [ruleInstSpec, hcols]
      constructor
      · rintro ⟨j, h1, h2, h3, h4⟩
        exact ⟨j, h1, h2, h3, by rw [hinst]; exact h4⟩
      · rintro ⟨j, h1, h2, h3, h4⟩
        rw [hinst] at h4
        exact ⟨j, h1, h2, h3, h4⟩
    · rw [Bool.not_eq_true] at hcols
      rw [if_pos (by simp [hcols])]
      refine iff_of_false (by simp) ?_
      rintro ⟨j, -, -, -, hj⟩
      simp only [ruleInstSpec] at hj
      rw [hcols] at hj
      simp at hj
  | vol_filter c =>
    simp only [Rule.lookahead_days] at hL
    simp only [Rule.duration_days] at hd
    simp only [evalRule, evaluate_vol_filter, hd, hL]
    by_cases hcols : (df.hasRV c.window && df.hasRVMed c.window) = true
    · rw [if_neg (by simp [hcols])]
      rw [lookahead_loop_iff
        (fun j => match df.rv c.window j, df.rvMed c.window j with
          | some rv, some med => volCondMet c.relation rv med
          | _, _ => false) L row_idx df.n]
      have hinst : ∀ j, ruleInstSpec (.vol_filter c) j df =
          (match df.rv c.window j, df.rvMed c.window j with
           | some rv, some med => volCondMet c.relation rv med
           | _, _ => false) := by
        intro j
        simp [ruleInstSpec, hcols]
      constructor
      · rintro ⟨j, h1, h2, h3, h4⟩
        exact ⟨j, h1, h2, h3, by rw [hinst]; exact h4⟩
      · rintro ⟨j, h1, h2, h3, h4⟩
        rw [hinst] at h4
        exact ⟨j, h1, h2, h3, h4⟩
    · rw [Bool.not_eq_true] at hcols
      rw [if_pos (by simp [hcols])]
      refine iff_of_false (by simp) ?_
      rintro ⟨j, -, -, -, hj⟩
      simp only [ruleInstSpec] at hj
      rw [hcols] at hj
      simp at hj

/-- C10: duration precedence — when `duration_days` is set, the duration
branch is taken first and the value of `lookahead_days` has no effect on
the evaluation result. -/
theorem duration_takes_precedence (r : Rule) (d : Int) (la : Option Int)
    (row_idx : Nat) (df : Table) (hd : r.duration_days = some d) :
    evalRule (r.withLookahead la) row_idx df = evalRule r row_idx df := by
  cases r with
  | crossover c =>
    simp only [Rule.duration_days] at hd
    simp [evalRule, Rule.withLookahead, evaluate_crossover, hd]
  | vol_filter c =>
    simp only [Rule.duration_days] at hd
    simp [evalRule, Rule.withLookahead, evaluate_vol_filter, hd]

/-- Witness for C1 at day 3 of `dfA` with duration 2. -/
theorem duration_mode_fails_closed_witness :
    crossDur2.duration_days = some 2 ∧ (1 : Int) ≤ 2 ∧
      (evalRule crossDur2 3 dfA = true ↔
        ((2 : Int) - 1 ≤ (3 : Nat) ∧
         ∀ j : Nat, ((3 : Nat) : Int) - 2 + 1 ≤ (j : Int) → j ≤ 3 →
           ruleInstSpec crossDur2 j dfA = true)) :=
  ⟨rfl, by decide, duration_mode_fails_closed crossDur2 2 3 dfA rfl (by decide)⟩

/-- Witness for C2 at day 0 of `dfA` with lookahead 3 (true only via day 2). -/
theorem lookahead_mode_fails_open_witness :
    volLook3.lookahead_days = some 3 ∧ volLook3.duration_days = none ∧
      (evalRule volLook3 0 dfA = true ↔
        ∃ j : Nat, 0 ≤ j ∧ (j : Int) ≤ ((0 : Nat) : Int) + 3 ∧ j < dfA.n ∧
          ruleInstSpec volLook3 j dfA = true) :=
  ⟨rfl, rfl, lookahead_mode_fails_open volLook3 3 0 dfA rfl rfl⟩

/-- Witness for C10: duration rule with a lookahead spliced in evaluates
identically. -/
theorem duration_takes_precedence_witness :
    crossDur2.duration_days = some 2 ∧
      evalRule (crossDur2.withLookahead (some 5)) 2 dfA = evalRule crossDur2 2 dfA :=
  ⟨rfl, duration_takes_precedence crossDur2 2 (some 5) 2 dfA rfl⟩

/-- The exact-day check computes the instantaneous condition. -/
theorem rule_at_index_eq_inst (rule : Rule) (row_idx : Nat) (df : Table) :
    evaluate_rule_at_index rule row_idx df = ruleInstSpec rule row_idx df := by
  cases rule with
  | crossover c =>
    simp only [evaluate_rule_at_index, evaluate_rule_at_index_st, Rule.withTemporal,
      evalRule, evaluate_crossover, ruleInstSpec]
    cases hcols : df.hasMA c.fast_ma && df.hasMA c.slow_ma <;> simp [hcols]
  | vol_filter c =>
    simp only [evaluate_rule_at_index, evaluate_rule_at_index_st, Rule.withTemporal,
      evalRule, evaluate_vol_filter, ruleInstSpec]
    cases hcols : df.hasRV c.window && df.hasRVMed c.window <;> simp [hcols]

/-- The exact-day check leaves the rule restored after the call. -/
theorem rule_at_index_restores (rule : Rule) (row_idx : Nat) (df : Table) :
    (evaluate_rule_at_index_st rule row_idx df).2 = rule := by
  cases rule <;> rfl

/-- `posAt` satisfies one step of the state machine. -/
theorem posAt_eq_step (spec : StrategySpec) (df : Table) (i : Nat) :
    posAt spec df i = simStep spec df (posPrev spec df i) i := by
  cases i with
  | zero => simp [posAt, posPrev]
  | succ m => simp [posAt, posPrev]

theorem simFrom_length (spec : StrategySpec) (df : Table) :
    ∀ (fuel i : Nat) (pos : ℚ), (simFrom spec df i fuel pos).length = fuel := by
  intro fuel
  induction fuel with
  | zero => intro i pos; rfl
  | succ m ih => intro i pos; simp [simFrom, ih]

theorem simFrom_getD (spec : StrategySpec) (df : Table) :
    ∀ (fuel i k : Nat) (pos : ℚ), k < fuel →
      (simFrom spec df i fuel pos).getD k 0 = iterSteps spec df pos i k := by
  intro fuel
  induction fuel with
  | zero => intro i k pos hk; omega
  | succ m ih =>
    intro i k pos hk
    cases k with
    | zero => rfl
    | succ j =>
      have := ih (i + 1) j (simStep spec df pos i) (by omega)
      simpa [simFrom, iterSteps] using this

theorem iterSteps_succ (spec : StrategySpec) (df : Table) :
    ∀ (k : Nat) (pos : ℚ) (i : Nat),
      iterSteps spec df pos i (k + 1) = simStep spec df (iterSteps spec df pos i k) (i + k + 1) := by
  intro k
  induction k with
  | zero => intro pos i; rfl
  | succ m ih =>
    intro pos i
    show iterSteps spec df (simStep spec df pos i) (i + 1) (m + 1) = _
    rw [ih (simStep spec df pos i) (i + 1)]
    have : i + 1 + m + 1 = i + (m + 1) + 1 := by omega
    rw [this]
    rfl

theorem iterSteps_zero_eq_posAt (spec : StrategySpec) (df : Table) (k : Nat) :
    iterSteps spec df 0 0 k = posAt spec df k := by
  induction k with
  | zero => rfl
  | succ m ih =>
    rw [iterSteps_succ spec df m 0 0, ih]
    simp [posAt]

theorem positions_length (spec : StrategySpec) (df : Table) :
    (run_backtest_positions spec df).length = df.n :=
  simFrom_length spec df df.n 0 0

theorem positions_getD (spec : StrategySpec) (df : Table) (k : Nat) (hk : k < df.n) :
    (run_backtest_positions spec df).getD k 0 = posAt spec df k := by
  rw [run_backtest_positions, simFrom_getD spec df df.n 0 k 0 hk,
    iterSteps_zero_eq_posAt]

/-- The state machine only ever produces positions 0 or 1. -/
theorem simStep_mem (spec : StrategySpec) (df : Table) (pos : ℚ) (i : Nat)
    (h : pos = 0 ∨ pos = 1) :
    simStep spec df pos i = 0 ∨ simStep spec df pos i = 1 := by
  rw [simStep]
  split_ifs with h1 h2
  · right; rfl
  · left; rfl
  · exact h

theorem posAt_mem (spec : StrategySpec) (df : Table) (i : Nat) :
    posAt spec df i = 0 ∨ posAt spec df i = 1 := by
  induction i with
  | zero => exact simStep_mem spec df 0 0 (Or.inl rfl)
  | succ m ih => exact simStep_mem spec df (posAt spec df m) (m + 1) ih

theorem posPrev_mem (spec : StrategySpec) (df : Table) (i : Nat) :
    posPrev spec df i = 0 ∨ posPrev spec df i = 1 := by
  rw [posPrev]
  split_ifs
  · exact Or.inl rfl
  · exact posAt_mem spec df (i - 1)

/-- C4: position-timeline invariant — the recorded position column has one
value per day, every value is 0 or 1, the machine starts FLAT, a 0→1
transition happens only on a day whose entry condition is true, a 1→0
transition only on a day with a true exit rule, and the position is
unchanged on every other day. -/
theorem position_timeline_invariant (spec : StrategySpec) (df : Table) :
    (run_backtest_positions spec df).length = df.n ∧
    posPrev spec df 0 = 0 ∧
    ∀ i, i < df.n →
      (run_backtest_positions spec df).getD i 0 = posAt spec df i ∧
      (posAt spec df i = 0 ∨ posAt spec df i = 1) ∧
      (posPrev spec df i = 0 → posAt spec df i = 1 → entryOk spec i df = true) ∧
      (posPrev spec df i = 1 → posAt spec df i = 0 → exitAny spec.exit_rules i df = true) ∧
      (¬(posPrev spec df i = 0 ∧ entryOk spec i df = true) →
        ¬(posPrev spec df i = 1 ∧ exitAny spec.exit_rules i df = true) →
        posAt spec df i = posPrev spec df i) := by
  refine ⟨positions_length spec df, by simp [posPrev], fun i hi => ?_⟩
  refine ⟨positions_getD spec df i hi, posAt_mem spec df i, ?_⟩
  have hstep := posAt_eq_step spec df i
  rw [simStep] at hstep
  by_cases h1 : posPrev spec df i = 0 ∧ entryOk spec i df = true
  · rw [if_pos h1] at hstep
    refine ⟨fun _ _ => h1.2, fun hp _ => ?_, fun hn1 _ => absurd h1 hn1⟩
    rw [h1.1] at hp
    norm_num at hp
  · rw [if_neg h1] at hstep
    by_cases h2 : posPrev spec df i = 1 ∧ exitAny spec.exit_rules i df = true
    · rw [if_pos h2] at hstep
      refine ⟨fun hp ha => ?_, fun _ _ => h2.2, fun _ hn2 => absurd h2 hn2⟩
      rw [hstep] at ha
      norm_num at ha
    · rw [if_neg h2] at hstep
      refine ⟨fun hp ha => ?_, fun hp ha => ?_, fun _ _ => hstep⟩
      · rw [hstep, hp] at ha
        norm_num at ha
      · rw [hstep, hp] at ha
        norm_num at ha

/-- C3: sequential entry — true iff the first rule's instantaneous
condition holds at the anchor day (its own modifiers ignored), every
modifier-free subsequent rule holds instantaneously at the anchor day,
and every lookahead rule holds instantaneously on some in-range day of
its window; a true result enters the position on the anchor day itself. -/
theorem sequential_entry_semantics (rules : List Rule) (first_rule : Rule)
    (rest : List Rule) (anchor : Nat) (df : Table) (spec : StrategySpec)
    (hr : rules = first_rule :: rest) :
    (evaluate_sequential_entry rules anchor df = true ↔
      (ruleInstSpec first_rule anchor df = true ∧
       ∀ rule ∈ rest,
         (rule.lookahead_days = none → ruleInstSpec rule anchor df = true) ∧
         (∀ L, rule.lookahead_days = some L →
           ∃ j : Nat, anchor ≤ j ∧ (j : Int) ≤ (anchor : Int) + L ∧ j < df.n ∧
             ruleInstSpec rule j df = true))) ∧
    (spec.entry_sequential = true → spec.entry_rules = rules →
      posPrev spec df anchor = 0 →
      evaluate_sequential_entry rules anchor df = true →
      posAt spec df anchor = 1) := by
  subst hr
  constructor
  · rw [evaluate_sequential_entry]
    by_cases hf : evaluate_rule_at_index first_rule anchor df = true
    · rw [if_neg (by simp [hf])]
      rw [rule_at_index_eq_inst] at hf
      rw [List.all_eq_true]
      constructor
      · intro h
        refine ⟨hf, fun rule hmem => ?_⟩
        have hp := h rule hmem
        constructor
        · intro hnone
          rw [hnone] at hp
          rwa [rule_at_index_eq_inst] at hp
        · intro L hsome
          rw [hsome] at hp
          rw [lookahead_loop_iff (fun j => evaluate_rule_at_index rule j df)
            L anchor df.n] at hp
          obtain ⟨j, hj1, hj2, hj3, hj4⟩ := hp
          rw [rule_at_index_eq_inst] at hj4
          exact ⟨j, hj1, hj2, hj3, hj4⟩
      · rintro ⟨-, h⟩ rule hmem
        obtain ⟨hnone, hsome⟩ := h rule hmem
        cases hL : rule.lookahead_days with
        | none =>
          rw [rule_at_index_eq_inst]
          exact hnone hL
        | some L =>
          rw [lookahead_loop_iff (fun j => evaluate_rule_at_index rule j df)
            L anchor df.n]
          obtain ⟨j, hj1, hj2, hj3, hj4⟩ := hsome L hL
          rw [← rule_at_index_eq_inst] at hj4
          exact ⟨j, hj1, hj2, hj3, hj4⟩
    · rw [if_pos (by simp [Bool.not_eq_true] at hf ⊢; exact hf)]
      refine iff_of_false (by simp) ?_
      rintro ⟨hfi, -⟩
      rw [rule_at_index_eq_inst] at hf
      exact hf hfi
  · intro hseq hrules hflat htrue
    rw [posAt_eq_step spec df anchor, simStep, if_pos]
    exact ⟨hflat, by rw [entryOk, if_pos (by rw [hseq]), hrules]; exact htrue⟩

/-- C7 counterexample: during `_evaluate_rule_at_index`, the rule object
passes through a state different from its original value — the rule *is*
mutated in place (and only restored afterwards). -/
theorem rule_evaluation_mutates_in_place :
    (rule_at_index_states volLook3).getD 1 volLook3 ≠ volLook3 := by
  decide

/-- C7 (amended): the exact-day check has no *net* effect on the rule —
the rule's state after the call equals its state before — and it returns
the instantaneous-mode result; but it is implemented by temporarily
clearing the modifier fields of the rule object rather than as a pure
parameterized check (see the counterexample). -/
theorem rule_evaluation_restores_rule (rule : Rule) (row_idx : Nat) (df : Table) :
    (evaluate_rule_at_index_st rule row_idx df).2 = rule ∧
    evaluate_rule_at_index rule row_idx df = ruleInstSpec rule row_idx df :=
  ⟨rule_at_index_restores rule row_idx df, rule_at_index_eq_inst rule row_idx df⟩

/-- Witness for C4 on `specA`/`dfA` at the entry day 2. -/
theorem position_timeline_invariant_witness :
    (2 : Nat) < dfA.n ∧ posPrev specA dfA 2 = 0 ∧ posAt specA dfA 2 = 1 ∧
      entryOk specA 2 dfA = true :=
  ⟨by decide, by decide, by decide,
    ((position_timeline_invariant specA dfA).2.2 2 (by decide)).2.2.1
      (by decide) (by decide)⟩

/-- Witness for C3 on the sequential fixture at anchor day 0: the
volatility filter only fires on day 2, within its 3-day window. -/
theorem sequential_entry_semantics_witness :
    ([crossInst, volLook3] : List Rule) = crossInst :: [volLook3] ∧
      (evaluate_sequential_entry [crossInst, volLook3] 2 dfA = true ↔
        (ruleInstSpec crossInst 2 dfA = true ∧
         ∀ rule ∈ [volLook3],
           (rule.lookahead_days = none → ruleInstSpec rule 2 dfA = true) ∧
           (∀ L, rule.lookahead_days = some L →
             ∃ j : Nat, 2 ≤ j ∧ (j : Int) ≤ ((2 : Nat) : Int) + L ∧ j < dfA.n ∧
               ruleInstSpec rule j dfA = true))) :=
  ⟨rfl, (sequential_entry_semantics [crossInst, volLook3] crossInst [volLook3]
    2 dfA specSeq rfl).1⟩

theorem getD_map_range (f : Nat → ℚ) (n t : Nat) (ht : t < n) :
    ((List.range n).map f).getD t 0 = f t := by
  rw [List.getD_eq_getElem ((List.range n).map f) 0 (by simpa using ht)]
  simp

theorem cumprodAux_getD :
    ∀ (xs : List ℚ) (acc : ℚ) (t : Nat), t < xs.length →
      (cumprodAux acc xs).getD t 1 = acc * (xs.take (t + 1)).prod := by
  intro xs
  induction xs with
  | nil => intro acc t ht; simp at ht
  | cons x xs ih =>
    intro acc t ht
    cases t with
    | zero => simp [cumprodAux]
    | succ j =>
      have hj : j < xs.length := by simpa using ht
      show (cumprodAux (acc * x) xs).getD j 1 = _
      rw [ih (acc * x) j hj]
      simp [List.take_succ_cons, mul_assoc]

/-- C6: one-day execution lag — each day's strategy return is the prior
day's recorded position (zero before day 0) times that day's raw return,
so the position recorded on a day never affects the same day's return;
the equity curve is the running product of one plus the strategy
returns. -/
theorem one_day_execution_lag (spec : StrategySpec) (df : Table) (t : Nat)
    (ht : t < df.n) :
    (strategy_returns spec df).getD t 0 = posPrev spec df t * df.ret t ∧
    (equity_curve spec df).getD t 1 =
      ((List.range (t + 1)).map fun s => 1 + posPrev spec df s * df.ret s).prod := by
  have hsr : ∀ s, s < df.n →
      (strategy_returns spec df).getD s 0 = posPrev spec df s * df.ret s := by
    intro s hs
    rw [strategy_returns, getD_map_range _ df.n s hs, posPrev]
    split_ifs with h0
    · rfl
    · rw [positions_getD spec df (s - 1) (by omega)]
  refine ⟨hsr t ht, ?_⟩
  rw [equity_curve, cumprodAux_getD _ 1 t (by simp [strategy_returns]; omega), one_mul]
  rw [strategy_returns, List.map_map, ← List.map_take, List.take_range,
    Nat.min_eq_left (by omega)]
  congr 1
  apply List.map_congr_left
  intro s hs
  rw [List.mem_range] at hs
  show 1 + (if s = 0 then 0 else (run_backtest_positions spec df).getD (s - 1) 0) * df.ret s
      = 1 + posPrev spec df s * df.ret s
  rw [posPrev]
  split_ifs with h0
  · rfl
  · rw [positions_getD spec df (s - 1) (by omega)]

/-- Witness for C6 on `specA`/`dfA` at day 3 (long since day 2). -/
theorem one_day_execution_lag_witness :
    (3 : Nat) < dfA.n ∧
      ((strategy_returns specA dfA).getD 3 0 = posPrev specA dfA 3 * dfA.ret 3 ∧
       (equity_curve specA dfA).getD 3 1 =
         ((List.range (3 + 1)).map fun s => 1 + posPrev specA dfA s * dfA.ret s).prod) :=
  ⟨by decide, one_day_execution_lag specA dfA 3 (by decide)⟩

theorem get_triggered_foldl_fst (row_idx : Nat) (df : Table) (is_entry : Bool) :
    ∀ (rules : List Rule) (b : Bool) (l : List String),
      (rules.foldl
        (fun acc rule =>
          let passed := evalRule rule row_idx df
          (acc.1 && passed,
           if passed then acc.2 ++ [formatRuleReason rule row_idx df is_entry] else acc.2))
        (b, l)).1 = (b && evaluate_rules rules row_idx df) := by
  intro rules
  induction rules with
  | nil => intro b l; simp [evaluate_rules]
  | cons r rs ih =>
    intro b l
    simp only [List.foldl_cons]
    rw [ih]
    simp [evaluate_rules, Bool.and_assoc]

/-- The reconstructor's all-pass flag agrees with the simulator's AND. -/
theorem get_triggered_fst (rules : List Rule) (row_idx : Nat) (df : Table)
    (is_entry : Bool) :
    (get_triggered_rules rules row_idx df is_entry).1 = evaluate_rules rules row_idx df := by
  rw [get_triggered_rules, get_triggered_foldl_fst]
  simp

/-- The reconstructor's exit scan agrees with the simulator's OR. -/
theorem exitScan_fst (rules : List Rule) (row_idx : Nat) (df : Table) :
    (exitScan rules row_idx df).1 = exitAny rules row_idx df := by
  rw [exitScan, exitAny]
  cases hf : rules.find? (fun rule => evalRule rule row_idx df) with
  | some r =>
    have hmem := List.mem_of_find?_eq_some hf
    have hp := List.find?_some hf
    simp only
    exact (List.any_eq_true.mpr ⟨r, hmem, hp⟩).symm
  | none =>
    have hnone := List.find?_eq_none.mp hf
    simp only
    symm
    rw [List.any_eq_false]
    exact hnone

/-- The reconstructor's entry decision agrees with the simulator's. -/
theorem extEntryPair_fst (spec : StrategySpec) (df : Table) (i : Nat) :
    (extEntryPair spec df i).1 = entryOk spec i df := by
  rw [extEntryPair, entryOk]
  split_ifs with h
  · simp
  · exact get_triggered_fst spec.entry_rules i df true

theorem entryDaysUpTo_succ (spec : StrategySpec) (df : Table) (i : Nat) :
    entryDaysUpTo spec df (i + 1) =
      entryDaysUpTo spec df i ++ (if entryTransAt spec df i then [i] else []) := by
  rw [entryDaysUpTo, List.range_succ, List.filter_append, entryDaysUpTo]
  congr 1
  cases h : entryTransAt spec df i <;> simp [h]

theorem exitDaysUpTo_succ (spec : StrategySpec) (df : Table) (i : Nat) :
    exitDaysUpTo spec df (i + 1) =
      exitDaysUpTo spec df i ++ (if exitTransAt spec df i then [i] else []) := by
  rw [exitDaysUpTo, List.range_succ, List.filter_append, exitDaysUpTo]
  congr 1
  cases h : exitTransAt spec df i <;> simp [h]

theorem entry_transition_days_eq (spec : StrategySpec) (df : Table) :
    entry_transition_days spec df = entryDaysUpTo spec df df.n := by
  rw [entry_transition_days, entryDaysUpTo]
  apply List.filter_congr
  intro i hi
  rw [List.mem_range] at hi
  rw [isEntryTransition, entryTransAt, decide_eq_decide]
  have h1 : (if i = 0 then (0 : ℚ) else posCol spec df (i - 1)) = posPrev spec df i := by
    rw [posPrev]
    split_ifs with h0
    · rfl
    · exact positions_getD spec df (i - 1) (by omega)
  rw [h1, posCol, positions_getD spec df i hi]

theorem exit_transition_days_eq (spec : StrategySpec) (df : Table) :
    exit_transition_days spec df = exitDaysUpTo spec df df.n := by
  rw [exit_transition_days, exitDaysUpTo]
  apply List.filter_congr
  intro i hi
  rw [List.mem_range] at hi
  rw [isExitTransition, exitTransAt, decide_eq_decide]
  have h1 : (if i = 0 then (0 : ℚ) else posCol spec df (i - 1)) = posPrev spec df i := by
    rw [posPrev]
    split_ifs with h0
    · rfl
    · exact positions_getD spec df (i - 1) (by omega)
  rw [h1, posCol, positions_getD spec df i hi]

theorem getD_append_len {α : Type} (l : List α) (a d : α) :
    (l ++ [a]).getD l.length d = a := by
  rw [List.getD_append_right l [a] d l.length le_rfl]
  simp

theorem extStep_inv (spec : StrategySpec) (df : Table) (i : Nat) (s : ExtState)
    (h : ExtInv spec df i s) : ExtInv spec df (i + 1) (extStep spec df s i) := by
  obtain ⟨hpos, h0, h1, hlen, hk⟩ := h
  have hppsucc : posPrev spec df (i + 1) = posAt spec df i := by simp [posPrev]
  have hstep := posAt_eq_step spec df i
  by_cases hA : s.position = 0 ∧ entryOk spec i df = true
  · -- entry day: FLAT → LONG
    have hprev0 : posPrev spec df i = 0 := by rw [← hpos]; exact hA.1
    rw [simStep, if_pos ⟨hprev0, hA.2⟩] at hstep
    obtain ⟨hcur, hEl⟩ := h0 hA.1
    have hET : entryTransAt spec df i = true := by
      simp [entryTransAt, hprev0, hstep]
    have hXT : exitTransAt spec df i = false := by
      apply decide_eq_false
      rintro ⟨hc, -⟩
      rw [hprev0] at hc
      norm_num at hc
    have hE := entryDaysUpTo_succ spec df i
    rw [if_pos hET] at hE
    have hX := exitDaysUpTo_succ spec df i
    rw [if_neg (by simp [hXT]), List.append_nil] at hX
    simp only [extStep]
    rw [if_pos ⟨hA.1, by rw [extEntryPair_fst]; exact hA.2⟩]
    refine ⟨by rw [hppsucc, hstep], ?_, ?_, ?_, ?_⟩
    · intro hc
      simp only at hc
      norm_num at hc
    · intro _
      constructor
      · refine ⟨_, rfl, ?_⟩
        simp only
        rw [hE, ← hEl, getD_append_len]
      · simp only
        rw [hE, List.length_append, hEl]
        rfl
    · simp only
      rw [hX]
      exact hlen
    · intro k hkk
      simp only at hkk ⊢
      rw [hE, hX, List.getD_append _ _ _ _ (by rw [hEl]; exact hkk)]
      exact hk k hkk
  · by_cases hB : s.position = 1 ∧ exitAny spec.exit_rules i df = true
    · -- exit day: LONG → FLAT
      have hprev1 : posPrev spec df i = 1 := by rw [← hpos]; exact hB.1
      rw [simStep, if_neg (by rintro ⟨hc, -⟩; rw [hprev1] at hc; norm_num at hc),
        if_pos ⟨hprev1, hB.2⟩] at hstep
      obtain ⟨⟨t, hcur, hdate⟩, hEl⟩ := h1 hB.1
      have hET : entryTransAt spec df i = false := by
        apply decide_eq_false
        rintro ⟨hc, -⟩
        rw [hprev1] at hc
        norm_num at hc
      have hXT : exitTransAt spec df i = true := by
        simp [exitTransAt, hprev1, hstep]
      have hE := entryDaysUpTo_succ spec df i
      rw [if_neg (by simp [hET]), List.append_nil] at hE
      have hX := exitDaysUpTo_succ spec df i
      rw [if_pos hXT] at hX
      simp only [extStep]
      rw [if_neg (by rintro ⟨hc, hee⟩; exact hA ⟨hc, by rw [← extEntryPair_fst]; exact hee⟩),
        if_pos ⟨hB.1, by rw [exitScan_fst]; exact hB.2, by rw [hcur]; rfl⟩, hcur]
      refine ⟨by rw [hppsucc, hstep], ?_, ?_, ?_, ?_⟩
      · intro _
        refine ⟨rfl, ?_⟩
        simp only
        rw [hE, hEl, List.length_append]
        rfl
      · intro hc
        simp only at hc
        norm_num at hc
      · simp only
        rw [hX, List.length_append, List.length_append, hlen]
        rfl
      · intro k hkk
        simp only [List.length_append, List.length_cons, List.length_nil] at hkk
        simp only
        rcases Nat.lt_succ_iff_lt_or_eq.mp (by simpa using hkk) with hlt | heq
        · rw [List.getD_append _ _ _ _ hlt, hE, hX,
            List.getD_append _ _ _ _ (by rw [← hlen]; exact hlt)]
          exact hk k hlt
        · subst heq
          rw [getD_append_len]
          refine ⟨?_, ?_⟩
          · simp only
            rw [hE]
            exact hdate
          · simp only
            rw [hX, hlen, getD_append_len]
    · -- no transition
      have hnA : ¬(posPrev spec df i = 0 ∧ entryOk spec i df = true) := by
        rw [← hpos]; exact hA
      have hnB : ¬(posPrev spec df i = 1 ∧ exitAny spec.exit_rules i df = true) := by
        rw [← hpos]; exact hB
      rw [simStep, if_neg hnA, if_neg hnB] at hstep
      have hET : entryTransAt spec df i = false := by
        apply decide_eq_false
        rintro ⟨hc0, hc1⟩
        rw [hstep, hc0] at hc1
        norm_num at hc1
      have hXT : exitTransAt spec df i = false := by
        apply decide_eq_false
        rintro ⟨hc1, hc0⟩
        rw [hstep, hc1] at hc0
        norm_num at hc0
      have hE := entryDaysUpTo_succ spec df i
      rw [if_neg (by simp [hET]), List.append_nil] at hE
      have hX := exitDaysUpTo_succ spec df i
      rw [if_neg (by simp [hXT]), List.append_nil] at hX
      simp only [extStep]
      rw [if_neg (by rintro ⟨hc, hee⟩; exact hA ⟨hc, by rw [← extEntryPair_fst]; exact hee⟩),
        if_neg (by rintro ⟨hc, hee, -⟩; exact hB ⟨hc, by rw [← exitScan_fst]; exact hee⟩)]
      refine ⟨by rw [hppsucc, hstep, ← hpos], ?_, ?_, ?_, ?_⟩
      · rw [hE]
        exact h0
      · rw [hE]
        exact h1
      · rw [hX]
        exact hlen
      · rw [hE, hX]
        exact hk

theorem extFrom_inv (spec : StrategySpec) (df : Table) :
    ∀ (fuel i : Nat) (s : ExtState), ExtInv spec df i s →
      ExtInv spec df (i + fuel) (extFrom spec df i fuel s) := by
  intro fuel
  induction fuel with
  | zero => intro i s h; exact h
  | succ m ih =>
    intro i s h
    have hrec := ih (i + 1) (extStep spec df s i) (extStep_inv spec df i s h)
    have harith : i + 1 + m = i + (m + 1) := by omega
    rw [harith] at hrec
    exact hrec

theorem extInv_zero (spec : StrategySpec) (df : Table) :
    ExtInv spec df 0 { position := 0, current_trade := none, trades := [] } := by
  refine ⟨by simp [posPrev], fun _ => ⟨rfl, by simp [entryDaysUpTo]⟩, fun hc => ?_,
    by simp [exitDaysUpTo], fun k hkk => by simp at hkk⟩
  norm_num at hc

/-- C5: simulator/reconstructor agreement — the reconstructor, running
its own FLAT/LONG state machine over the shared rule-evaluation
primitives, produces exactly the transition history of the simulator's
position column: the k-th trade's entry date is the date of the k-th 0→1
transition, and the k-th recorded exit (when it is not the synthetic
end-of-period close) is dated at the k-th 1→0 transition. -/
theorem simulator_reconstructor_agree (spec : StrategySpec) (df : Table) :
    (extract_trades spec df).length = (entry_transition_days spec df).length ∧
    (∀ k, k < (extract_trades spec df).length →
      ((extract_trades spec df).getD k dummyTrade).entry_date =
        df.dateStr ((entry_transition_days spec df).getD k 0)) ∧
    (∀ k, k < (exit_transition_days spec df).length →
      ((extract_trades spec df).getD k dummyTrade).exit_date =
        some (df.dateStr ((exit_transition_days spec df).getD k 0))) := by
  have hInv := extFrom_inv spec df df.n 0
    { position := 0, current_trade := none, trades := [] } (extInv_zero spec df)
  rw [Nat.zero_add] at hInv
  obtain ⟨hpos, h0, h1, hlen, hk⟩ := hInv
  rw [entry_transition_days_eq, exit_transition_days_eq]
  have hpm : posPrev spec df df.n = 0 ∨ posPrev spec df df.n = 1 :=
    posPrev_mem spec df df.n
  rw [← hpos] at hpm
  simp only [extract_trades]
  rcases hpm with hp0 | hp1
  · -- flat at the end: no synthetic close
    obtain ⟨hcur, hEl⟩ := h0 hp0
    rw [hcur]
    refine ⟨hEl.symm, fun k hkk => (hk k hkk).1, fun k hkk => ?_⟩
    rw [← hlen] at hkk
    exact (hk k hkk).2
  · -- still long: synthetic close of the open trade
    obtain ⟨⟨t, hcur, hdate⟩, hEl⟩ := h1 hp1
    rw [hcur]
    simp only
    rw [if_pos hp1]
    refine ⟨?_, ?_, ?_⟩
    · rw [List.length_append, hEl]
      rfl
    · intro k hkk
      simp only [List.length_append, List.length_cons, List.length_nil] at hkk
      rcases Nat.lt_succ_iff_lt_or_eq.mp (by simpa using hkk) with hlt | heq
      · rw [List.getD_append _ _ _ _ hlt]
        exact (hk k hlt).1
      · subst heq
        rw [getD_append_len]
        simp only
        exact hdate
    · intro k hkk
      rw [← hlen] at hkk
      rw [List.getD_append _ _ _ _ hkk]
      exact (hk k hkk).2

/-- Witness for C5 on `specA`/`dfA`: one trade, entered on the single 0→1
transition day. -/
theorem simulator_reconstructor_agree_witness :
    0 < (extract_trades specA dfA).length ∧
      ((extract_trades specA dfA).getD 0 dummyTrade).entry_date =
        dfA.dateStr ((entry_transition_days specA dfA).getD 0 0) :=
  ⟨by decide, (simulator_reconstructor_agree specA dfA).2.1 0 (by decide)⟩

theorem dedupFirstAux_mem {α : Type} [DecidableEq α] :
    ∀ (l seen : List α) (x : α), x ∈ dedupFirstAux seen l ↔ x ∈ l ∧ x ∉ seen := by
  intro l
  induction l with
  | nil => intro seen x; simp [dedupFirstAux]
  | cons a as ih =>
    intro seen x
    rw [dedupFirstAux]
    split_ifs with ha
    · rw [ih]
      simp only [List.mem_cons]
      constructor
      · rintro ⟨hx, hs⟩
        exact ⟨Or.inr hx, hs⟩
      · rintro ⟨hor, hs⟩
        rcases hor with rfl | hx
        · exact absurd ha hs
        · exact ⟨hx, hs⟩
    · simp only [List.mem_cons, ih]
      constructor
      · rintro (rfl | ⟨hx, hs⟩)
        · exact ⟨Or.inl rfl, ha⟩
        · exact ⟨Or.inr hx, fun hmem => hs (Or.inr hmem)⟩
      · rintro ⟨hor, hs⟩
        rcases hor with rfl | hx
        · exact Or.inl rfl
        · by_cases hxa : x = a
          · exact Or.inl hxa
          · exact Or.inr ⟨hx, by simp [List.mem_cons, hxa, hs]⟩

theorem dedupFirstAux_nodup {α : Type} [DecidableEq α] :
    ∀ (l seen : List α), (dedupFirstAux seen l).Nodup := by
  intro l
  induction l with
  | nil => intro seen; simp [dedupFirstAux]
  | cons a as ih =>
    intro seen
    rw [dedupFirstAux]
    split_ifs with ha
    · exact ih seen
    · refine List.nodup_cons.mpr ⟨?_, ih (a :: seen)⟩
      intro hmem
      exact ((dedupFirstAux_mem as (a :: seen) a).mp hmem).2 (List.mem_cons_self a seen)

theorem dedupFirstAux_pairwise {α : Type} [DecidableEq α] :
    ∀ (l seen : List α),
      (dedupFirstAux seen l).Pairwise (fun x y => l.indexOf x < l.indexOf y) := by
  intro l
  induction l with
  | nil => intro seen; simp [dedupFirstAux]
  | cons a as ih =>
    intro seen
    rw [dedupFirstAux]
    split_ifs with ha
    · refine List.Pairwise.imp_of_mem ?_ (ih seen)
      intro x y hx hy hlt
      have hxm := (dedupFirstAux_mem as seen x).mp hx
      have hym := (dedupFirstAux_mem as seen y).mp hy
      have hxa : x ≠ a := fun h => hxm.2 (h ▸ ha)
      have hya : y ≠ a := fun h => hym.2 (h ▸ ha)
      rw [List.indexOf_cons_ne as (Ne.symm hxa), List.indexOf_cons_ne as (Ne.symm hya)]
      exact Nat.succ_lt_succ hlt
    · refine List.pairwise_cons.mpr ⟨?_, ?_⟩
      · intro y hy
        have hym := (dedupFirstAux_mem as (a :: seen) y).mp hy
        have hya : y ≠ a := fun h => hym.2 (h ▸ List.mem_cons_self a seen)
        rw [List.indexOf_cons_self, List.indexOf_cons_ne as (Ne.symm hya)]
        exact Nat.succ_pos _
      · refine List.Pairwise.imp_of_mem ?_ (ih (a :: seen))
        intro x y hx hy hlt
        have hxm := (dedupFirstAux_mem as (a :: seen) x).mp hx
        have hym := (dedupFirstAux_mem as (a :: seen) y).mp hy
        have hxa : x ≠ a := fun h => hxm.2 (h ▸ List.mem_cons_self a seen)
        have hya : y ≠ a := fun h => hym.2 (h ▸ List.mem_cons_self a seen)
        rw [List.indexOf_cons_ne as (Ne.symm hxa), List.indexOf_cons_ne as (Ne.symm hya)]
        exact Nat.succ_lt_succ hlt

theorem dedupFirst_mem {α : Type} [DecidableEq α] (l : List α) (x : α) :
    x ∈ dedupFirst l ↔ x ∈ l := by
  rw [dedupFirst, dedupFirstAux_mem]
  simp

theorem dedupFirst_nodup {α : Type} [DecidableEq α] (l : List α) :
    (dedupFirst l).Nodup :=
  dedupFirstAux_nodup l []

theorem dedupFirst_pairwise {α : Type} [DecidableEq α] (l : List α) :
    (dedupFirst l).Pairwise (fun x y => l.indexOf x < l.indexOf y) :=
  dedupFirstAux_pairwise l []

theorem count_eq_one_of_nodup_mem {α : Type} [BEq α] [LawfulBEq α] :
    ∀ (l : List α) (a : α), l.Nodup → a ∈ l → l.count a = 1 := by
  intro l
  induction l with
  | nil => intro a _ hm; simp at hm
  | cons x xs ih =>
    intro a hn hm
    obtain ⟨hx, hxs⟩ := List.nodup_cons.mp hn
    rcases List.mem_cons.mp hm with rfl | hmem
    · rw [List.count_cons_self, List.count_eq_zero_of_not_mem hx]
    · rw [List.count_cons, ih a hxs hmem, if_neg ?_]
      intro hab
      exact hx (eq_of_beq hab ▸ hmem)

/-- C8: structural validator — `ok` is true exactly when the error list
is empty, errors and warnings are deduplicated preserving first-seen
order (strictly increasing first-occurrence positions in the raw append
order), and a rule set containing both 10/50-above and 10/50-below entry
crossovers yields exactly one contradiction error and `ok = false`. -/
theorem validator_contradiction_and_shape (spec : StrategySpec) :
    ((validate_spec spec).ok = true ↔ (validate_spec spec).errors = []) ∧
    (validate_spec spec).errors.Nodup ∧
    (validate_spec spec).warnings.Nodup ∧
    (validate_spec spec).errors.Pairwise
      (fun a b => (rawErrors spec).indexOf a < (rawErrors spec).indexOf b) ∧
    (validate_spec spec).warnings.Pairwise
      (fun a b => (rawWarnings spec).indexOf a < (rawWarnings spec).indexOf b) ∧
    (contraAbove ∈ spec.entry_rules → contraBelow ∈ spec.entry_rules →
      (validate_spec spec).errors.count contraMsg = 1 ∧
      (validate_spec spec).ok = false) := by
  refine ⟨by simp [validate_spec, List.isEmpty_iff], dedupFirst_nodup _, dedupFirst_nodup _,
    dedupFirst_pairwise _, dedupFirst_pairwise _, fun h1 h2 => ?_⟩
  have hkey : ((10 : Int), (50 : Int)) ∈ crossoverKeys (spec.entry_rules ++ spec.exit_rules) := by
    rw [crossoverKeys, dedupFirst_mem, List.mem_flatMap]
    exact ⟨contraAbove, List.mem_append_left _ h1, by simp [contraAbove]⟩
  have habove : "above" ∈ crossoverDirs spec (10, 50) := by
    rw [crossoverDirs, List.mem_flatMap]
    refine ⟨contraAbove, List.mem_append_left _ h1, ?_⟩
    simp only [contraAbove]
    rw [if_pos ⟨by trivial, h1⟩]
    simp
  have hbelow : "below" ∈ crossoverDirs spec (10, 50) := by
    rw [crossoverDirs, List.mem_flatMap]
    refine ⟨contraBelow, List.mem_append_left _ h2, ?_⟩
    simp only [contraBelow]
    rw [if_pos ⟨by trivial, h2⟩]
    simp
  have hcc : contraMsg ∈ crossContraErrors spec := by
    rw [crossContraErrors, List.mem_flatMap]
    refine ⟨(10, 50), hkey, ?_⟩
    rw [if_pos ⟨habove, hbelow⟩]
    simp [contraMsg]
  have hraw : contraMsg ∈ rawErrors spec := by
    rw [rawErrors]
    simp only [List.mem_append]
    exact Or.inl (Or.inr hcc)
  have hmemD : contraMsg ∈ (validate_spec spec).errors := by
    simp only [validate_spec]
    rw [dedupFirst_mem]
    exact hraw
  refine ⟨count_eq_one_of_nodup_mem _ _ (dedupFirst_nodup _) hmemD, ?_⟩
  simp only [validate_spec]
  rw [List.isEmpty_eq_false]
  exact List.ne_nil_of_mem hmemD

/-- Witness for C8 on the contradictory fixture. -/
theorem validator_contradiction_and_shape_witness :
    contraAbove ∈ specContra.entry_rules ∧ contraBelow ∈ specContra.entry_rules ∧
      ((validate_spec specContra).errors.count contraMsg = 1 ∧
       (validate_spec specContra).ok = false) :=
  ⟨by decide, by decide,
    (validator_contradiction_and_shape specContra).2.2.2.2.2 (by decide) (by decide)⟩

/-- A serialized rule parses back to itself. -/
theorem parse_rule_to_dict (r : Rule) : parse_rule (rule_to_dict r) = .ok r := by
  cases r <;> simp [parse_rule, rule_to_dict]

theorem exceptBind_ok {e a b : Type} (x : a) (f : a → Except e b) :
    (Except.ok x >>= f) = f x := rfl

theorem mapM_parse_to_dict :
    ∀ rs : List Rule, (rs.map rule_to_dict).mapM parse_rule = .ok rs := by
  intro rs
  induction rs with
  | nil => rfl
  | cons r rest ih =>
    rw [List.map_cons, List.mapM_cons, parse_rule_to_dict, ih]
    rfl

/-- C9: round-trip — serializing a specification and parsing the result
back succeeds (for a specification with non-empty rule lists, the
parser's validity precondition) and reproduces the entry rules, the exit
rules (every field including the temporal modifiers, in order) and the
`entry_sequential` flag. -/
theorem spec_roundtrip (spec : StrategySpec)
    (he : spec.entry_rules ≠ []) (hx : spec.exit_rules ≠ []) :
    ∃ spec2, parse_strategy_spec spec.to_dict = .ok spec2 ∧
      spec2.entry_rules = spec.entry_rules ∧
      spec2.exit_rules = spec.exit_rules ∧
      spec2.entry_sequential = spec.entry_sequential := by
  refine ⟨{ ticker := spec.ticker.toUpper.trim
            start_date := spec.start_date
            end_date := spec.end_date
            entry_rules := spec.entry_rules
            exit_rules := spec.exit_rules
            metrics := (some spec.metrics).getD ["cagr", "max_drawdown", "sharpe"]
            entry_sequential := (if spec.entry_sequential then some true else none).getD false },
    ?_, rfl, rfl, ?_⟩
  · rw [parse_strategy_spec, StrategySpec.to_dict]
    simp only
    rw [mapM_parse_to_dict, mapM_parse_to_dict, exceptBind_ok, exceptBind_ok,
      if_neg (by simp [he]), if_neg (by simp [hx])]
    rfl
  · simp only
    cases hs : spec.entry_sequential <;> simp [hs]

/-- Witness for C9 on the sequential fixture (modifiers present,
`entry_sequential = true`). -/
theorem spec_roundtrip_witness :
    specSeq.entry_rules ≠ [] ∧ specSeq.exit_rules ≠ [] ∧
      ∃ spec2, parse_strategy_spec specSeq.to_dict = .ok spec2 ∧
        spec2.entry_rules = specSeq.entry_rules ∧
        spec2.exit_rules = specSeq.exit_rules ∧
        spec2.entry_sequential = specSeq.entry_sequential :=
  ⟨by decide, by decide, spec_roundtrip specSeq (by decide) (by decide)⟩
